import Mathlib

/-!
Verification development for the 3D wireframe renderer.

Shallow embedding of the repository's core (src/core/Math.h, Mesh.h,
Geometry.h, ObjLoader.cpp, Renderer.cpp and the frame-building part of
src/apps/render_qt.cpp) in Lean 4.

Modelling conventions:
* C++ `float`/`double` arithmetic is modelled with exact rationals (`ℚ`).
  Consequently `std::isfinite` checks in the source are identically true in
  the model and are noted where they occur; the algebraic structure of every
  formula is translated verbatim.
* C++ `int` is modelled by `Int`.  The 64-bit packing of an edge key
  (`(uint64(a) << 32) | uint32(b)` after a canonical swap, Geometry.h) is
  injective on 32-bit ints, so it is modelled by the swapped pair itself.
* Text records are modelled at whitespace-token granularity: an input line is
  a `List String` of its whitespace-separated tokens, which is what the
  `std::istringstream` extraction loop in ObjLoader.cpp observes.
  `std::stoi` is modelled by `parseIntTok` (optional sign, longest digit
  prefix, failure when no digit); `operator>>` into a `float` is modelled by
  `parseFloatTok` (optional sign, decimal digits with optional fraction;
  failure yields the value 0 with a sticky fail state, as in C++11).
  Exponent notation and out-of-range overflow are not exercised by any claim
  and are not modelled.
-/

set_option autoImplicit false

namespace Renderer3D

/-- 2D vector (`Vec2f` in Math.h), over exact rationals. -/
structure Vec2 where
  x : ℚ
  y : ℚ
  deriving DecidableEq

/-- 3D vector (`Vec3f` in Math.h). -/
structure Vec3 where
  x : ℚ
  y : ℚ
  z : ℚ
  deriving DecidableEq

/-- 4D vector (`Vec4f` in Math.h). -/
structure Vec4 where
  x : ℚ
  y : ℚ
  z : ℚ
  w : ℚ
  deriving DecidableEq

/-- 4×4 matrix (`Mat4` in Math.h): entry access `m i j` is `m.m[i][j]`. -/
def Mat4 : Type := Fin 4 → Fin 4 → ℚ

/-- `Mat4::identity()`. -/
def identityM : Mat4 := fun i j => if i = j then 1 else 0

/-- `operator*(Mat4, Mat4)` from Math.h: `r[i][j] = Σ_k a[i][k] * b[k][j]`,
with the inner `k`-loop unrolled. -/
def matMul (a b : Mat4) : Mat4 := fun i j =>
  a i 0 * b 0 j + a i 1 * b 1 j + a i 2 * b 2 j + a i 3 * b 3 j

/-- `mul(Mat4, Vec4)` from Math.h. -/
def mulMV (a : Mat4) (v : Vec4) : Vec4 where
  x := a 0 0 * v.x + a 0 1 * v.y + a 0 2 * v.z + a 0 3 * v.w
  y := a 1 0 * v.x + a 1 1 * v.y + a 1 2 * v.z + a 1 3 * v.w
  z := a 2 0 * v.x + a 2 1 * v.y + a 2 2 * v.z + a 2 3 * v.w
  w := a 3 0 * v.x + a 3 1 * v.y + a 3 2 * v.z + a 3 3 * v.w

/-- Mesh (Mesh.h): vertex positions and edges as pairs of `int` indices. -/
structure Mesh where
  vertices : List Vec3
  edges : List (Int × Int)
  deriving DecidableEq

/-- Vertex lookup `mesh.vertices[i]`.  Out-of-range access is undefined
behaviour in the C++; the model totalises it with a default vertex, and
theorems that depend on indexing carry an in-range hypothesis. -/
def vertexAt (m : Mesh) (i : Int) : Vec3 :=
  m.vertices.getD i.toNat ⟨0, 0, 0⟩

/-- Interpolation parameter used by `Renderer::clipToNear` (Renderer.cpp
line 12): `t = (nearZ + a.z) / (a.z - b.z)`. -/
def tRenderer (a b : Vec3) (nearZ : ℚ) : ℚ :=
  (nearZ + a.z) / (a.z - b.z)

/-- Interpolation parameter used by the viewer's `clipNear` (render_qt.cpp
line 75): `t = (-znear - a.z) / (b.z - a.z)`. -/
def tViewer (a b : Vec3) (znear : ℚ) : ℚ :=
  (-znear - a.z) / (b.z - a.z)

/-- The interpolated intersection point `i` built in both clip routines. -/
def lerpV (a b : Vec3) (t : ℚ) : Vec3 where
  x := a.x + (b.x - a.x) * t
  y := a.y + (b.y - a.y) * t
  z := a.z + (b.z - a.z) * t

/-- `Renderer::clipToNear` (Renderer.cpp lines 4-20).  The C++ mutates `a`/`b`
in place and returns a keep/discard bool; the model returns
`Option (Vec3 × Vec3)` with `none` for discard. -/
def clipToNear (a b : Vec3) (nearZ : ℚ) : Option (Vec3 × Vec3) :=
  if nearZ ≤ -a.z ∧ nearZ ≤ -b.z then some (a, b)
  else if ¬ nearZ ≤ -a.z ∧ ¬ nearZ ≤ -b.z then none
  else
    let i := lerpV a b (tRenderer a b nearZ)
    if ¬ nearZ ≤ -a.z then some (i, b) else some (a, i)

/-- The viewer's `clipNear` (render_qt.cpp lines 67-79); identical control
flow, differently written interpolation parameter. -/
def clipNear (a b : Vec3) (znear : ℚ) : Option (Vec3 × Vec3) :=
  if znear ≤ -a.z ∧ znear ≤ -b.z then some (a, b)
  else if ¬ znear ≤ -a.z ∧ ¬ znear ≤ -b.z then none
  else
    let i := lerpV a b (tViewer a b znear)
    if ¬ znear ≤ -a.z then some (i, b) else some (a, i)

/-- `Renderer::projectToScreen` (Renderer.cpp lines 22-37): perspective divide
guarded by `|w| < 1e-6`, NDC→pixel mapping with Y flipped.  The
`std::isfinite` check at line 36 is identically true over exact arithmetic,
and the NDC-bounds `if` at lines 30-33 has an empty body. -/
def projectToScreenR (W H : ℚ) (clip : Vec4) : Option Vec2 :=
  if |clip.w| < 1 / 1000000 then none
  else
    let ndcX := clip.x / clip.w
    let ndcY := clip.y / clip.w
    some ⟨(ndcX * (1 / 2) + 1 / 2) * W, (1 - (ndcY * (1 / 2) + 1 / 2)) * H⟩

/-- The viewer's file-static `projectToScreen` (render_qt.cpp lines 56-64):
applies the projection matrix itself, then the same divide/mapping (its
`std::isfinite` checks on the NDC values are identically true here). -/
def projectToScreenV (P : Mat4) (W H : ℚ) (c : Vec3) : Option Vec2 :=
  let clip := mulMV P ⟨c.x, c.y, c.z, 1⟩
  if |clip.w| < 1 / 1000000 then none
  else
    let ndcX := clip.x / clip.w
    let ndcY := clip.y / clip.w
    some ⟨(ndcX * (1 / 2) + 1 / 2) * W, (1 - (ndcY * (1 / 2) + 1 / 2)) * H⟩

/-- Camera-space position of a vertex: `mul(vm, {v,1})` truncated to xyz
(Renderer.cpp lines 54-57, render_qt.cpp lines 120-124). -/
def camVert (vm : Mat4) (v : Vec3) : Vec3 :=
  let c := mulMV vm ⟨v.x, v.y, v.z, 1⟩
  ⟨c.x, c.y, c.z⟩

/-- Emit a segment exactly when both endpoint projections succeeded
(`if (projectToScreen(ap, sa) && projectToScreen(bp, sb)) push`,
Renderer.cpp line 67, and the two early-`continue`s at render_qt.cpp
lines 157-158). -/
def pairOpt {α β : Type} : Option α → Option β → Option (α × β)
  | some a, some b => some (a, b)
  | _, _ => none

/-- Body of the per-edge loop of `Renderer::buildProjectedLines`
(Renderer.cpp lines 49-70): camera transform, near clip, projection of both
endpoints; `none` when the edge is discarded. -/
def renderEdge (vm P : Mat4) (W H nearZ : ℚ) (va vb : Vec3) :
    Option (Vec2 × Vec2) :=
  (clipToNear (camVert vm va) (camVert vm vb) nearZ).bind fun pr =>
    pairOpt (projectToScreenR W H (mulMV P ⟨pr.1.x, pr.1.y, pr.1.z, 1⟩))
      (projectToScreenR W H (mulMV P ⟨pr.2.x, pr.2.y, pr.2.z, 1⟩))

/-- `Renderer::buildProjectedLines` (Renderer.cpp lines 39-72).  The loop
pushes one optional segment per edge in order, which is `List.filterMap`.
(The `pvm` product computed at line 47 is never used by the source.) -/
def buildProjectedLines (view P model : Mat4) (W H : ℚ) (mesh : Mesh)
    (nearZ : ℚ) : List (Vec2 × Vec2) :=
  let vm := matMul view model
  mesh.edges.filterMap fun e =>
    renderEdge vm P W H nearZ (vertexAt mesh e.1) (vertexAt mesh e.2)

/-- Per-vertex pre-validation of the viewer (render_qt.cpp lines 126-135):
`screens[i]`/`valid[i]` hold a screen point exactly when the vertex is in
front of the near plane and projects; modelled as an `Option`. -/
def preScreen (V P : Mat4) (W H znear : ℚ) (v : Vec3) : Option Vec2 :=
  let c := camVert V v
  if znear ≤ -c.z then projectToScreenV P W H c else none

/-- Body of the viewer's per-edge loop before the LOD/cap checks
(render_qt.cpp lines 144-159): cached path when both endpoints pre-validated,
otherwise the full clip-then-project fallback. -/
def viewerEdge (V P : Mat4) (W H znear : ℚ) (mesh : Mesh) (e : Int × Int) :
    Option (Vec2 × Vec2) :=
  match preScreen V P W H znear (vertexAt mesh e.1),
        preScreen V P W H znear (vertexAt mesh e.2) with
  | some sa, some sb => some (sa, sb)
  | _, _ =>
    (clipNear (camVert V (vertexAt mesh e.1)) (camVert V (vertexAt mesh e.2))
        znear).bind fun pr =>
      pairOpt (projectToScreenV P W H pr.1) (projectToScreenV P W H pr.2)

/-- Squared pixel length `dx*dx + dy*dy` of a segment
(render_qt.cpp line 161). -/
def segLen2 (s : Vec2 × Vec2) : ℚ :=
  (s.1.x - s.2.x) * (s.1.x - s.2.x) + (s.1.y - s.2.y) * (s.1.y - s.2.y)

/-- The viewer's segment-emitting loop (render_qt.cpp lines 144-166): per-edge
segment, pixel-length LOD rejection when `fastMode` is on, push, and the hard
cap `if (lines.size() >= cap) break` checked after the push. -/
def viewerLoop (f : Int × Int → Option (Vec2 × Vec2)) (fast : Bool)
    (lod2 : ℚ) (cap : Nat) : List (Int × Int) → Nat → List (Vec2 × Vec2)
  | [], _ => []
  | e :: rest, count =>
    match f e with
    | none => viewerLoop f fast lod2 cap rest count
    | some s =>
      if fast = true ∧ segLen2 s < lod2 then
        viewerLoop f fast lod2 cap rest count
      else if cap ≤ count + 1 then [s]
      else s :: viewerLoop f fast lod2 cap rest (count + 1)

/-- The frame-building part of `Viewer::paintEvent` (render_qt.cpp lines
117-166): camera transform and pre-validation of every vertex, then the
segment loop with LOD threshold `lodPx` (squared to `lod2` at line 141) and
output cap. -/
def viewerFrame (V P : Mat4) (W H znear : ℚ) (mesh : Mesh) (fast : Bool)
    (lodPx : ℚ) (cap : Nat) : List (Vec2 × Vec2) :=
  viewerLoop (viewerEdge V P W H znear mesh) fast (lodPx * lodPx) cap
    mesh.edges 0

/-- Direct (clip-free) projection of two camera-space endpoints.  Stated from
the spec's words "emitted segment endpoints equal direct projection (no
clipping interpolation applied)" as the comparison target for C2. -/
def specDirectProject (P : Mat4) (W H : ℚ) (a b : Vec3) :
    Option (Vec2 × Vec2) :=
  pairOpt (projectToScreenR W H (mulMV P ⟨a.x, a.y, a.z, 1⟩))
    (projectToScreenR W H (mulMV P ⟨b.x, b.y, b.z, 1⟩))

/-- Numeric value of a list of decimal digit characters. -/
def digitsVal (ds : List Char) : Nat :=
  ds.foldl (fun acc c => acc * 10 + (c.toNat - '0'.toNat)) 0

/-- Model of `std::stoi` on a whitespace-free token (ObjLoader.cpp line 53),
given as its character list: optional sign, then the longest prefix of
decimal digits; fails (throws `std::invalid_argument` in C++) when that
prefix is empty.  Trailing non-digit characters are ignored, as `stoi`
ignores them. -/
def parseIntTok (cs : List Char) : Option Int :=
  let p : Int × List Char :=
    match cs with
    | '-' :: r => (-1, r)
    | '+' :: r => (1, r)
    | r => (1, r)
  let ds := p.2.takeWhile Char.isDigit
  if ds = [] then none else some (p.1 * (digitsVal ds : Int))

/-- Model of `operator>>` extraction of a `float` from one token
(ObjLoader.cpp line 41): optional sign, decimal digits with an optional
fractional part, at least one digit in total and nothing left over; `none`
models the stream entering the fail state. -/
def parseFloatTok (cs : List Char) : Option ℚ :=
  let p : ℚ × List Char :=
    match cs with
    | '-' :: r => (-1, r)
    | '+' :: r => (1, r)
    | r => (1, r)
  let ip := p.2.takeWhile Char.isDigit
  let rest := p.2.drop ip.length
  match rest with
  | [] => if ip = [] then none else some (p.1 * (digitsVal ip : ℚ))
  | '.' :: r2 =>
    let fp := r2.takeWhile Char.isDigit
    if r2.drop fp.length = [] ∧ ¬(ip = [] ∧ fp = []) then
      some (p.1 * ((digitsVal ip : ℚ) + (digitsVal fp : ℚ) / (10 : ℚ) ^ fp.length))
    else none
  | _ => none

/-- `iss >> v.x >> v.y >> v.z` into a zero-initialised `Vec3f`
(ObjLoader.cpp lines 40-41): each failed or missing extraction stores 0 and
puts the stream in a sticky fail state, so everything after the first
failure is 0 (C++11 semantics). -/
def readVec3 (toks : List String) : Vec3 :=
  match toks with
  | [] => ⟨0, 0, 0⟩
  | t1 :: r1 =>
    match parseFloatTok t1.data with
    | none => ⟨0, 0, 0⟩
    | some x =>
      match r1 with
      | [] => ⟨x, 0, 0⟩
      | t2 :: r2 =>
        match parseFloatTok t2.data with
        | none => ⟨x, 0, 0⟩
        | some y =>
          match r2 with
          | [] => ⟨x, y, 0⟩
          | t3 :: _ =>
            match parseFloatTok t3.data with
            | none => ⟨x, y, 0⟩
            | some z => ⟨x, y, z⟩

/-- The face-token loop of ObjLoader.cpp lines 46-57: split the token at the
first `/`, skip the token when the first segment is empty, abort the whole
load when `stoi` fails, resolve negative indices against the current vertex
count and make everything 0-based.  `vcount` is `out.vertices.size()` at the
time the face record is read. -/
def parseFaceToks (vcount : Nat) : List String → Except Unit (List Int)
  | [] => .ok []
  | t :: r =>
    let a := t.data.takeWhile fun c => c ≠ '/'
    if a = [] then parseFaceToks vcount r
    else
      match parseIntTok a with
      | none => .error ()
      | some idx =>
        let j : Int := if idx < 0 then (vcount : Int) + idx + 1 else idx
        Except.map (fun rest => (j - 1) :: rest) (parseFaceToks vcount r)

/-- `addFaceEdges` (ObjLoader.cpp lines 11-23): a face of length `n ≥ 2`
contributes the boundary edges `(f[i], f[(i+1) mod n])`, skipping `a == b`. -/
def addFaceEdges (f : List Int) : List (Int × Int) :=
  if f.length < 2 then []
  else
    (List.range f.length).filterMap fun i =>
      let a := f.getD i 0
      let b := f.getD ((i + 1) % f.length) 0
      if a = b then none else some (a, b)

/-- `edgeKey` (Geometry.h lines 8-12): canonical unordered key, smaller index
first.  The C++ packs the swapped pair into a `uint64_t`; that packing is
injective on 32-bit ints, so the model keeps the pair. -/
def edgeKey (a b : Int) : Int × Int :=
  if b < a then (b, a) else (a, b)

/-- Worker of `dedupEdges` (Geometry.h lines 14-24): keep an edge when its
key was not seen before.  The `std::unordered_set` is modelled as the list of
keys inserted so far. -/
def dedupGo (seen : List (Int × Int)) : List (Int × Int) → List (Int × Int)
  | [] => []
  | e :: rest =>
    if edgeKey e.1 e.2 ∈ seen then dedupGo seen rest
    else e :: dedupGo (edgeKey e.1 e.2 :: seen) rest

/-- `dedupEdges` (Geometry.h lines 14-24). -/
def dedupEdges (es : List (Int × Int)) : List (Int × Int) :=
  dedupGo [] es

/-- One input record, as the whitespace-separated tokens the
`istringstream` extraction in `loadOBJ` observes.  A raw line that is blank
has no tokens; a comment line's first token starts with `#` and is neither
the tag `v` nor `f`, so blank, comment and unrecognized lines all take the
silent-skip path exactly as in the C++. -/
abbrev ObjLine := List String

/-- The line loop of `loadOBJ` (ObjLoader.cpp lines 33-61), carrying the
growing vertex list (`out.vertices`, shared with the caller's mesh) and the
local pre-deduplication edge accumulator. -/
def loadLines : List ObjLine → List Vec3 → List (Int × Int) →
    Except Unit (List Vec3 × List (Int × Int))
  | [], vs, es => .ok (vs, es)
  | [] :: rest, vs, es => loadLines rest vs es
  | (tag :: toks) :: rest, vs, es =>
    if tag = "v" then loadLines rest (vs ++ [readVec3 toks]) es
    else if tag = "f" then
      match parseFaceToks vs.length toks with
      | .error e => .error e
      | .ok f => loadLines rest vs (es ++ addFaceEdges f)
    else loadLines rest vs es

/-- `loadOBJ` (ObjLoader.cpp lines 25-68) on an already-opened source: the
vertex list of the passed-in mesh is extended in place, the local edge list
starts empty, and on success the mesh's edge list is replaced wholesale by
the deduplicated new edges.  `Except.error` models the uncaught
`std::invalid_argument` escaping from `std::stoi`. -/
def loadOBJ (lines : List ObjLine) (m0 : Mesh) : Except Unit Mesh :=
  match loadLines lines m0.vertices [] with
  | .error e => .error e
  | .ok (vs, es) => .ok ⟨vs, dedupEdges es⟩

/-- Number of vertex records in a source. -/
def vcountLines (lines : List ObjLine) : Nat :=
  (lines.filter fun l => l.head? = some "v").length

/-- Rebased line loop: same parse as `loadLines`, but producing only the
newly read vertices and edges, given just the number of vertices already
present when parsing starts.  Used to state how `loadOBJ` treats the
passed-in mesh (claim C10). -/
def loadLinesRel : List ObjLine → Nat → Except Unit (List Vec3 × List (Int × Int))
  | [], _ => .ok ([], [])
  | [] :: rest, k => loadLinesRel rest k
  | (tag :: toks) :: rest, k =>
    if tag = "v" then
      Except.map (fun p => (readVec3 toks :: p.1, p.2)) (loadLinesRel rest (k + 1))
    else if tag = "f" then
      match parseFaceToks k toks with
      | .error e => .error e
      | .ok f => Except.map (fun p => (p.1, addFaceEdges f ++ p.2)) (loadLinesRel rest k)
    else loadLinesRel rest k

/-- A face-index token whose first `/`-segment is non-empty but not parseable
as an integer: on such a token `std::stoi` throws (ObjLoader.cpp line 53). -/
def malformedFaceTok (t : String) : Prop :=
  t.data.takeWhile (fun c => c ≠ '/') ≠ [] ∧
    parseIntTok (t.data.takeWhile fun c => c ≠ '/') = none

instance (t : String) : Decidable (malformedFaceTok t) := by
  unfold malformedFaceTok; infer_instance

/-- Exponential smoothing of the frame time (render_qt.cpp line 198):
`smoothedMs = 0.85 * smoothedMs + 0.15 * ms`. -/
def smoothe (prev ms : ℚ) : ℚ :=
  (85 / 100) * prev + (15 / 100) * ms

/-- The LOD update of the adaptive controller (render_qt.cpp lines 218-220),
applied to the already-smoothed frame time: goal is `1000 / targetFps` ms;
raise by 10% while below 5px when over 105% of goal, lower by 10% while
above 0.25px when under 80% of goal, else leave unchanged. -/
def adaptLod (smoothedMs lodPx targetFps : ℚ) : ℚ :=
  let goal := 1000 / targetFps
  if smoothedMs > goal * (105 / 100) ∧ lodPx < 5 then lodPx * (110 / 100)
  else if smoothedMs < goal * (80 / 100) ∧ lodPx > 25 / 100 then lodPx * (90 / 100)
  else lodPx

/-- One full controller step (render_qt.cpp lines 196-220): smooth the new
measurement, then update the LOD threshold from the smoothed value. -/
def controllerStep (prevSmoothed ms lodPx targetFps : ℚ) : ℚ × ℚ :=
  let s := smoothe prevSmoothed ms
  (s, adaptLod s lodPx targetFps)

/-! ### Helper lemmas -/

theorem matMul_identityM (A : Mat4) : matMul A identityM = A := by
  funext i j
  fin_cases j <;> simp [matMul, identityM]

theorem tParam_eq (a b : Vec3) (n : ℚ) : tRenderer a b n = tViewer a b n := by
  unfold tRenderer tViewer
  rcases eq_or_ne (a.z - b.z) 0 with h | h
  · have h2 : b.z - a.z = 0 := by linarith
    rw [h, h2, div_zero, div_zero]
  · have h2 : b.z - a.z ≠ 0 := fun hh => h (by linarith)
    field_simp
    ring

theorem clip_eq (a b : Vec3) (n : ℚ) : clipToNear a b n = clipNear a b n := by
  unfold clipToNear clipNear
  rw [tParam_eq]

theorem clip_bothIn (a b : Vec3) (n : ℚ) (ha : n ≤ -a.z) (hb : n ≤ -b.z) :
    clipToNear a b n = some (a, b) := by
  unfold clipToNear
  simp [ha, hb]

theorem clip_bothOut (a b : Vec3) (n : ℚ) (ha : ¬ n ≤ -a.z) (hb : ¬ n ≤ -b.z) :
    clipToNear a b n = none := by
  unfold clipToNear
  simp [ha, hb]

theorem projV_eq (P : Mat4) (W H : ℚ) (c : Vec3) :
    projectToScreenV P W H c = projectToScreenR W H (mulMV P ⟨c.x, c.y, c.z, 1⟩) :=
  rfl

/-! ### Claim C1: near-clip interpolation correctness -/

/-- Claim C1: for an edge with exactly one endpoint behind the near plane
(in-front iff `-z ≥ nearPlaneDistance`), `clipToNear` keeps the segment and
replaces the behind endpoint with the affine interpolation of the endpoints
at the code's parameter `t`, which equals the spec's
`(-nearPlaneDistance - z_a) / (z_b - z_a)`, and the interpolated point's
camera-space z is exactly `-nearPlaneDistance`. -/
theorem clipToNear_one_behind (a b : Vec3) (n : ℚ)
    (h : (n ≤ -a.z ∧ ¬ n ≤ -b.z) ∨ (¬ n ≤ -a.z ∧ n ≤ -b.z)) :
    tRenderer a b n = (-n - a.z) / (b.z - a.z) ∧
    (n ≤ -a.z → clipToNear a b n = some (a, lerpV a b (tRenderer a b n))) ∧
    (¬ n ≤ -a.z → clipToNear a b n = some (lerpV a b (tRenderer a b n), b)) ∧
    (lerpV a b (tRenderer a b n)).z = -n := by
  have hzz : a.z - b.z ≠ 0 := by
    rcases h with ⟨h1, h2⟩ | ⟨h1, h2⟩
    · intro hc; exact h2 (by linarith [le_neg.mp h1])
    · intro hc; exact h1 (by linarith [le_neg.mp h2])
  refine ⟨?_, ?_, ?_, ?_⟩
  · exact tParam_eq a b n
  · intro ha
    have hb : ¬ n ≤ -b.z := by
      rcases h with ⟨_, h2⟩ | ⟨h1, _⟩
      · exact h2
      · exact absurd ha h1
    unfold clipToNear
    simp [ha, hb]
  · intro ha
    have hb : n ≤ -b.z := by
      rcases h with ⟨h1, _⟩ | ⟨_, h2⟩
      · exact absurd h1 ha
      · exact h2
    unfold clipToNear
    simp [ha, hb]
  · show a.z + (b.z - a.z) * ((n + a.z) / (a.z - b.z)) = -n
    field_simp
    ring

/-- Witness for C1, at the spec's concrete instance: endpoints with
camera-space z = -2 (in front) and z = +1 (behind), near distance 1; the
clipped segment keeps the front endpoint and the replacement point has
z exactly -1. -/
theorem clipToNear_one_behind_witness :
    clipToNear ⟨0, 0, -2⟩ ⟨0, 0, 1⟩ 1
      = some (⟨0, 0, -2⟩, lerpV ⟨0, 0, -2⟩ ⟨0, 0, 1⟩ (tRenderer ⟨0, 0, -2⟩ ⟨0, 0, 1⟩ 1)) ∧
    (lerpV ⟨0, 0, -2⟩ ⟨0, 0, 1⟩ (tRenderer ⟨0, 0, -2⟩ ⟨0, 0, 1⟩ 1)).z = -1 := by
  have h := clipToNear_one_behind ⟨0, 0, -2⟩ ⟨0, 0, 1⟩ 1 (Or.inl (by norm_num))
  exact ⟨h.2.1 (by norm_num), h.2.2.2⟩

/-! ### Claim C2: trivial-accept and trivial-reject of the near clip -/

/-- Claim C2: in the projection pipeline, an edge whose camera-space
endpoints are both strictly behind the near plane (`-z < nearZ`) emits
nothing; an edge whose endpoints are both in front (`-z ≥ nearZ`) is
projected directly, with no clipping interpolation applied; and a mesh all
of whose edges are behind produces an empty output. -/
theorem renderEdge_cull_passthrough (view model P : Mat4) (W H n : ℚ)
    (va vb : Vec3) (mesh : Mesh) :
    ((-(camVert (matMul view model) va).z < n ∧
      -(camVert (matMul view model) vb).z < n) →
      renderEdge (matMul view model) P W H n va vb = none) ∧
    ((n ≤ -(camVert (matMul view model) va).z ∧
      n ≤ -(camVert (matMul view model) vb).z) →
      renderEdge (matMul view model) P W H n va vb
        = specDirectProject P W H (camVert (matMul view model) va)
            (camVert (matMul view model) vb)) ∧
    ((∀ e ∈ mesh.edges,
        -(camVert (matMul view model) (vertexAt mesh e.1)).z < n ∧
        -(camVert (matMul view model) (vertexAt mesh e.2)).z < n) →
      buildProjectedLines view P model W H mesh n = []) := by
  have hcull : ∀ xa xb : Vec3,
      -(camVert (matMul view model) xa).z < n ∧
      -(camVert (matMul view model) xb).z < n →
      renderEdge (matMul view model) P W H n xa xb = none := by
    intro xa xb h
    have hc := clip_bothOut (camVert (matMul view model) xa)
      (camVert (matMul view model) xb) n (not_le.mpr h.1) (not_le.mpr h.2)
    simp only [renderEdge, hc, Option.none_bind]
  refine ⟨hcull va vb, ?_, ?_⟩
  · intro h
    have hc := clip_bothIn (camVert (matMul view model) va)
      (camVert (matMul view model) vb) n h.1 h.2
    simp only [renderEdge, hc, Option.some_bind, specDirectProject]
  · intro h
    unfold buildProjectedLines
    rw [List.filterMap_eq_nil_iff]
    intro e he
    exact hcull _ _ (h e he)

/-- Witness for C2: with identity view/model/projection, an edge at
camera-space z = +5 (both endpoints behind, near = 1) emits nothing and a
one-edge mesh of such points renders to an empty list, while an edge at
z = -5 (both in front) is emitted as the direct projection of its unmodified
endpoints. -/
theorem renderEdge_cull_passthrough_witness :
    renderEdge (matMul identityM identityM) identityM 100 100 1
      ⟨0, 0, 5⟩ ⟨1, 0, 5⟩ = none ∧
    buildProjectedLines identityM identityM identityM 100 100
      ⟨[⟨0, 0, 5⟩, ⟨1, 0, 5⟩], [(0, 1)]⟩ 1 = [] ∧
    renderEdge (matMul identityM identityM) identityM 100 100 1
      ⟨0, 0, -5⟩ ⟨1, 0, -5⟩
      = specDirectProject identityM 100 100
          (camVert (matMul identityM identityM) ⟨0, 0, -5⟩)
          (camVert (matMul identityM identityM) ⟨1, 0, -5⟩) := by
  refine ⟨?_, ?_, ?_⟩
  · exact (renderEdge_cull_passthrough identityM identityM identityM 100 100 1
      ⟨0, 0, 5⟩ ⟨1, 0, 5⟩ ⟨[], []⟩).1
      (by constructor <;> (simp [camVert, mulMV, matMul, identityM]; try norm_num))
  · refine (renderEdge_cull_passthrough identityM identityM identityM 100 100 1
      ⟨0, 0, 5⟩ ⟨1, 0, 5⟩ ⟨[⟨0, 0, 5⟩, ⟨1, 0, 5⟩], [(0, 1)]⟩).2.2 ?_
    intro e he
    rcases List.mem_singleton.mp he with rfl
    constructor <;>
      (simp [vertexAt, camVert, mulMV, matMul, identityM]; try norm_num)
  · exact (renderEdge_cull_passthrough identityM identityM identityM 100 100 1
      ⟨0, 0, -5⟩ ⟨1, 0, -5⟩ ⟨[], []⟩).2.1
      (by constructor <;> (simp [camVert, mulMV, matMul, identityM]; try norm_num))

/-! ### Claim C3: the interactive viewer refines the renderer -/

/-- The viewer's emit loop is the LOD-filtered segment list truncated at the
cap: the `break` after a push stops exactly when `cap` segments exist. -/
theorem viewerLoop_eq_take (f : Int × Int → Option (Vec2 × Vec2))
    (fast : Bool) (lod2 : ℚ) (cap : Nat) (edges : List (Int × Int)) :
    ∀ count : Nat, count < cap →
    viewerLoop f fast lod2 cap edges count =
      (edges.filterMap fun e => (f e).bind fun s =>
        if fast = true ∧ segLen2 s < lod2 then none else some s).take
        (cap - count) := by
  induction edges with
  | nil => intro count h; simp [viewerLoop]
  | cons e rest ih =>
    intro count h
    rcases hf : f e with _ | s
    · simp only [viewerLoop, hf, List.filterMap_cons, Option.none_bind]
      exact ih count h
    · by_cases hl : fast = true ∧ segLen2 s < lod2
      · simp only [viewerLoop, hf, if_pos hl, List.filterMap_cons,
          Option.some_bind]
        exact ih count h
      · by_cases hc : cap ≤ count + 1
        · have h1 : cap - count = 1 := by omega
          simp [viewerLoop, hf, hl, hc, List.filterMap_cons, h1]
        · have h1 : cap - count = (cap - (count + 1)) + 1 := by omega
          simp only [viewerLoop, hf, if_neg hl, if_neg hc,
            List.filterMap_cons, Option.some_bind, h1, List.take_succ_cons]
          rw [ih (count + 1) (by omega)]

/-- Per edge, the viewer's cached-or-fallback path computes exactly the
renderer's clip-then-project path. -/
theorem viewerEdge_eq_renderEdge (V P : Mat4) (W H n : ℚ) (mesh : Mesh)
    (e : Int × Int) :
    viewerEdge V P W H n mesh e
      = renderEdge V P W H n (vertexAt mesh e.1) (vertexAt mesh e.2) := by
  rcases hpa : preScreen V P W H n (vertexAt mesh e.1) with _ | sa <;>
  rcases hpb : preScreen V P W H n (vertexAt mesh e.2) with _ | sb
  case none.none =>
    simp only [viewerEdge, hpa, hpb, renderEdge, clip_eq]
    rfl
  case none.some =>
    simp only [viewerEdge, hpa, hpb, renderEdge, clip_eq]
    rfl
  case some.none =>
    simp only [viewerEdge, hpa, hpb, renderEdge, clip_eq]
    rfl
  case some.some =>
    have ha : n ≤ -(camVert V (vertexAt mesh e.1)).z := by
      by_contra hn
      simp only [preScreen, if_neg hn] at hpa
      exact Option.noConfusion hpa
    have hb : n ≤ -(camVert V (vertexAt mesh e.2)).z := by
      by_contra hn
      simp only [preScreen, if_neg hn] at hpb
      exact Option.noConfusion hpb
    have hpa2 : projectToScreenV P W H (camVert V (vertexAt mesh e.1))
        = some sa := by
      simpa only [preScreen, if_pos ha] using hpa
    have hpb2 : projectToScreenV P W H (camVert V (vertexAt mesh e.2))
        = some sb := by
      simpa only [preScreen, if_pos hb] using hpb
    simp only [viewerEdge, hpa, hpb, renderEdge,
      clip_bothIn _ _ _ ha hb, Option.some_bind]
    rw [← projV_eq, ← projV_eq, hpa2, hpb2]
    rfl

/-- Claim C3: the renderer's and the viewer's clip routines compute equal
interpolation parameters and equal clipped segments whenever exactly one
endpoint is behind the near plane; consequently the viewer's per-edge path
(per-vertex pre-validation cache, `clipNear`, projection), with the LOD
filter disabled and the output cap not reachable, emits exactly the segments
of `Renderer::buildProjectedLines` with identity model matrix on the same
mesh, view, projection, near distance and viewport.  The index hypothesis
`hE` records that every edge dereferences real vertices (out-of-range
indexing would be undefined behaviour in the C++). -/
theorem viewer_refines_renderer (V P : Mat4) (W H n lodPx : ℚ) (mesh : Mesh)
    (cap : Nat) (hcap : mesh.edges.length ≤ cap) (hpos : 0 < cap)
    (hE : ∀ e ∈ mesh.edges,
      (0 ≤ e.1 ∧ e.1.toNat < mesh.vertices.length) ∧
      (0 ≤ e.2 ∧ e.2.toNat < mesh.vertices.length)) :
    (∀ a b : Vec3, (n ≤ -a.z ∧ ¬ n ≤ -b.z) ∨ (¬ n ≤ -a.z ∧ n ≤ -b.z) →
      tRenderer a b n = tViewer a b n ∧ clipToNear a b n = clipNear a b n) ∧
    viewerFrame V P W H n mesh false lodPx cap
      = buildProjectedLines V P identityM W H mesh n := by
  refine ⟨fun a b _ => ⟨tParam_eq a b n, clip_eq a b n⟩, ?_⟩
  unfold viewerFrame
  rw [viewerLoop_eq_take _ _ _ _ _ 0 hpos]
  have hgf : (fun e => (viewerEdge V P W H n mesh e).bind fun s =>
      if false = true ∧ segLen2 s < lodPx * lodPx then none else some s)
      = fun e => viewerEdge V P W H n mesh e := by
    funext e
    rcases viewerEdge V P W H n mesh e with _ | s <;> simp
  rw [hgf]
  have hlen : (mesh.edges.filterMap fun e => viewerEdge V P W H n mesh e).length
      ≤ cap := le_trans (List.length_filterMap_le _ _) hcap
  rw [Nat.sub_zero, List.take_of_length_le hlen]
  unfold buildProjectedLines
  rw [matMul_identityM]
  exact List.filterMap_congr fun e _ => viewerEdge_eq_renderEdge V P W H n mesh e

/-- Witness for C3: equal clip parameters at the spec's one-behind instance,
and frame-for-frame agreement of viewer and renderer on a concrete two-vertex
one-edge mesh under identity view/projection. -/
theorem viewer_refines_renderer_witness :
    tRenderer ⟨0, 0, -2⟩ ⟨0, 0, 1⟩ 1 = tViewer ⟨0, 0, -2⟩ ⟨0, 0, 1⟩ 1 ∧
    viewerFrame identityM identityM 100 100 1
        ⟨[⟨0, 0, -5⟩, ⟨1, 0, -5⟩], [(0, 1)]⟩ false (3 / 2) 5
      = buildProjectedLines identityM identityM identityM 100 100
          ⟨[⟨0, 0, -5⟩, ⟨1, 0, -5⟩], [(0, 1)]⟩ 1 := by
  have h := viewer_refines_renderer identityM identityM 100 100 1 (3 / 2)
    ⟨[⟨0, 0, -5⟩, ⟨1, 0, -5⟩], [(0, 1)]⟩ 5 (by decide) (by decide)
    (by decide)
  exact ⟨(h.1 ⟨0, 0, -2⟩ ⟨0, 0, 1⟩ (Or.inl (by norm_num))).1, h.2⟩

/-! ### Claim C7: LOD filter and its monotonicity -/

theorem mulMV_identityM (v : Vec4) : mulMV identityM v = v := by
  cases v; simp [mulMV, identityM]

theorem camVert_identityM (v : Vec3) : camVert identityM v = v := by
  cases v; simp [camVert, mulMV_identityM]

/-- Every segment the loop emits with `fastMode` on survived the LOD test. -/
theorem viewerLoop_mem_not_lod (f : Int × Int → Option (Vec2 × Vec2))
    (lod2 : ℚ) (cap : Nat) (edges : List (Int × Int)) :
    ∀ (count : Nat) (s : Vec2 × Vec2),
      s ∈ viewerLoop f true lod2 cap edges count → ¬ segLen2 s < lod2 := by
  induction edges with
  | nil => intro count s hs; simp [viewerLoop] at hs
  | cons e rest ih =>
    intro count s hs
    rcases hf : f e with _ | s2
    · simp only [viewerLoop, hf] at hs
      exact ih count s hs
    · simp only [viewerLoop, hf, true_and] at hs
      by_cases hl : segLen2 s2 < lod2
      · rw [if_pos hl] at hs
        exact ih count s hs
      · rw [if_neg hl] at hs
        by_cases hc : cap ≤ count + 1
        · rw [if_pos hc, List.mem_singleton] at hs
          exact hs ▸ hl
        · rw [if_neg hc, List.mem_cons] at hs
          rcases hs with rfl | hs
          · exact hl
          · exact ih (count + 1) s hs

/-- A pointwise-stricter partial map yields a sublist of segments. -/
theorem filterMap_sublist_of_imp {α β : Type} (g1 g2 : α → Option β)
    (h : ∀ e s, g2 e = some s → g1 e = some s) :
    ∀ l : List α, (l.filterMap g2).Sublist (l.filterMap g1) := by
  intro l
  induction l with
  | nil => simp
  | cons e rest ih =>
    rcases hg2 : g2 e with _ | b
    · rcases hg1 : g1 e with _ | b1
      · simpa [List.filterMap_cons, hg2, hg1] using ih
      · simp only [List.filterMap_cons, hg2, hg1]
        exact ih.cons b1
    · have hg1 := h e b hg2
      simp only [List.filterMap_cons, hg2, hg1]
      exact ih.cons₂ b

/-- Claim C7: with detail reduction enabled, every emitted segment's squared
pixel length is at least the squared threshold (segments under the threshold
are omitted); and raising the threshold can only shrink the number of
emitted segments for the same frame inputs. -/
theorem lod_filter_monotone (V P : Mat4) (W H n lodPx lod1 lod2 : ℚ)
    (mesh : Mesh) (cap : Nat) :
    (∀ s ∈ viewerFrame V P W H n mesh true lodPx cap,
      ¬ segLen2 s < lodPx * lodPx) ∧
    (0 ≤ lod1 → lod1 ≤ lod2 → 0 < cap →
      (viewerFrame V P W H n mesh true lod2 cap).length
        ≤ (viewerFrame V P W H n mesh true lod1 cap).length) := by
  constructor
  · intro s hs
    exact viewerLoop_mem_not_lod _ _ _ _ 0 s hs
  · intro h0 h12 hpos
    unfold viewerFrame
    rw [viewerLoop_eq_take _ _ _ _ _ 0 hpos, viewerLoop_eq_take _ _ _ _ _ 0 hpos]
    have hsq : lod1 * lod1 ≤ lod2 * lod2 :=
      mul_le_mul h12 h12 h0 (le_trans h0 h12)
    have hsub := filterMap_sublist_of_imp
      (fun e => (viewerEdge V P W H n mesh e).bind fun s =>
        if true = true ∧ segLen2 s < lod1 * lod1 then none else some s)
      (fun e => (viewerEdge V P W H n mesh e).bind fun s =>
        if true = true ∧ segLen2 s < lod2 * lod2 then none else some s)
      ?_ mesh.edges
    · have hle := hsub.length_le
      simp only [List.length_take]
      exact min_le_min (le_refl _) (by simpa using hle)
    · intro e s hs
      dsimp only at hs ⊢
      rcases hve : viewerEdge V P W H n mesh e with _ | s2
      · rw [hve, Option.none_bind] at hs
        exact Option.noConfusion hs
      · rw [hve, Option.some_bind] at hs
        by_cases hlt : segLen2 s2 < lod2 * lod2
        · rw [if_pos ⟨rfl, hlt⟩] at hs
          exact Option.noConfusion hs
        · rw [if_neg (fun hc => hlt hc.2)] at hs
          rw [Option.some_bind,
            if_neg (fun hc : true = true ∧ segLen2 s2 < lod1 * lod1 =>
              hlt (lt_of_lt_of_le hc.2 hsq))]
          exact hs

/-- Witness for C7: on a concrete one-edge frame the emitted segment has
squared length 2500, which the theorem certifies is not below the active
threshold 1.5px; and raising the threshold from 1.5px to 3px does not
increase the emitted count. -/
theorem lod_filter_monotone_witness :
    ¬ segLen2 (⟨⟨50, 50⟩, ⟨100, 50⟩⟩ : Vec2 × Vec2) < (3 / 2) * (3 / 2) ∧
    (viewerFrame identityM identityM 100 100 1
        ⟨[⟨0, 0, -5⟩, ⟨1, 0, -5⟩], [(0, 1)]⟩ true 3 5).length
      ≤ (viewerFrame identityM identityM 100 100 1
        ⟨[⟨0, 0, -5⟩, ⟨1, 0, -5⟩], [(0, 1)]⟩ true (3 / 2) 5).length := by
  have h := lod_filter_monotone identityM identityM 100 100 1 (3 / 2) (3 / 2) 3
    ⟨[⟨0, 0, -5⟩, ⟨1, 0, -5⟩], [(0, 1)]⟩ 5
  constructor
  · refine h.1 ⟨⟨50, 50⟩, ⟨100, 50⟩⟩ ?_
    norm_num [viewerFrame, viewerLoop, viewerEdge, preScreen, camVert_identityM,
      mulMV_identityM, vertexAt, projectToScreenV, segLen2, pairOpt]
  · exact h.2 (by norm_num) (by norm_num) (by norm_num)

/-! ### Claim C8: adaptive detail controller -/

/-- Counterexample to C8 as stated: the code guards each 10% step by the
bound (`lodPx < 5.0`, `lodPx > 0.25`) *before* multiplying, so the updated
threshold does not remain within [0.25px, 5px].  At target 60fps with
smoothed time 100ms (far over 105% of the 16.7ms budget) and threshold
4.9px, one step yields 5.39px > 5px; symmetrically with smoothed time 1ms
and threshold 0.26px one step yields 0.234px < 0.25px. -/
theorem controller_bound_counterexample :
    smoothe 100 100 > (1000 / 60) * (105 / 100) ∧
    (controllerStep 100 100 (49 / 10) 60).2 = 539 / 100 ∧
    ¬ (controllerStep 100 100 (49 / 10) 60).2 ≤ 5 ∧
    smoothe 1 1 < (1000 / 60) * (80 / 100) ∧
    (controllerStep 1 1 (26 / 100) 60).2 = 117 / 500 ∧
    ¬ 25 / 100 ≤ (controllerStep 1 1 (26 / 100) 60).2 := by
  norm_num [controllerStep, smoothe, adaptLod]

/-- Claim C8 (amended): the smoothed time is the 0.85/0.15 exponential
moving average and the budget is `1000/targetFPS`; when the smoothed time
exceeds 105% of budget *and the threshold is still below 5px* the threshold
is multiplied by 1.1, when the smoothed time is under 80% of budget *and the
threshold is still above 0.25px* it is multiplied by 0.9, and otherwise it
is unchanged.  The bounds act as guards, not clamps: the updated threshold
stays within the open interval (0.225px, 5.5px), not within [0.25px, 5px]. -/
theorem controller_step_rule (prev ms lod fps : ℚ) :
    (controllerStep prev ms lod fps).1 = (85 / 100) * prev + (15 / 100) * ms ∧
    (smoothe prev ms > (1000 / fps) * (105 / 100) ∧ lod < 5 →
      (controllerStep prev ms lod fps).2 = lod * (110 / 100)) ∧
    (¬ (smoothe prev ms > (1000 / fps) * (105 / 100) ∧ lod < 5) →
      smoothe prev ms < (1000 / fps) * (80 / 100) ∧ lod > 25 / 100 →
      (controllerStep prev ms lod fps).2 = lod * (90 / 100)) ∧
    (¬ (smoothe prev ms > (1000 / fps) * (105 / 100) ∧ lod < 5) →
      ¬ (smoothe prev ms < (1000 / fps) * (80 / 100) ∧ lod > 25 / 100) →
      (controllerStep prev ms lod fps).2 = lod) ∧
    (9 / 40 < lod → 9 / 40 < (controllerStep prev ms lod fps).2) ∧
    (lod < 11 / 2 → (controllerStep prev ms lod fps).2 < 11 / 2) := by
  refine ⟨rfl, ?_, ?_, ?_, ?_, ?_⟩
  · intro h
    simp only [controllerStep, adaptLod]
    rw [if_pos h]
  · intro h1 h2
    simp only [controllerStep, adaptLod]
    rw [if_neg h1, if_pos h2]
  · intro h1 h2
    simp only [controllerStep, adaptLod]
    rw [if_neg h1, if_neg h2]
  · intro hl
    simp only [controllerStep, adaptLod]
    by_cases h1 : smoothe prev ms > (1000 / fps) * (105 / 100) ∧ lod < 5
    · rw [if_pos h1]; nlinarith
    · rw [if_neg h1]
      by_cases h2 : smoothe prev ms < (1000 / fps) * (80 / 100) ∧ lod > 25 / 100
      · rw [if_pos h2]; nlinarith [h2.2]
      · rw [if_neg h2]; exact hl
  · intro hu
    simp only [controllerStep, adaptLod]
    by_cases h1 : smoothe prev ms > (1000 / fps) * (105 / 100) ∧ lod < 5
    · rw [if_pos h1]; nlinarith [h1.2]
    · rw [if_neg h1]
      by_cases h2 : smoothe prev ms < (1000 / fps) * (80 / 100) ∧ lod > 25 / 100
      · rw [if_pos h2]; nlinarith [h2.2]
      · rw [if_neg h2]; exact hu

/-- Witness for C8 (amended), at target 60fps, previous smoothed time 100ms,
new sample 100ms, threshold 1px: the controller takes the increase branch to
1.1px, and the preserved bounds hold. -/
theorem controller_step_rule_witness :
    (controllerStep 100 100 1 60).2 = 1 * (110 / 100) ∧
    9 / 40 < (controllerStep 100 100 1 60).2 ∧
    (controllerStep 100 100 1 60).2 < 11 / 2 := by
  have h := controller_step_rule 100 100 1 60
  exact ⟨h.2.1 (by norm_num [smoothe]), h.2.2.2.2.1 (by norm_num),
    h.2.2.2.2.2 (by norm_num)⟩

/-! ### Loader helper lemmas shared by C4, C6, C9, C10 -/

/-- `addFaceEdges` never emits a degenerate (equal-endpoint) edge: the
`a == b` continue in ObjLoader.cpp line 19. -/
theorem addFaceEdges_ne (f : List Int) : ∀ e ∈ addFaceEdges f, e.1 ≠ e.2 := by
  intro e he
  unfold addFaceEdges at he
  by_cases hlen : f.length < 2
  · rw [if_pos hlen] at he
    exact absurd he (List.not_mem_nil e)
  · rw [if_neg hlen] at he
    rcases List.mem_filterMap.mp he with ⟨i, _, hev⟩
    by_cases hd : f.getD i 0 = f.getD ((i + 1) % f.length) 0
    · rw [if_pos hd] at hev
      exact Option.noConfusion hev
    · rw [if_neg hd] at hev
      rcases Option.some.inj hev with rfl
      exact hd

/-- Both endpoints of an emitted face edge are members of the face. -/
theorem addFaceEdges_mem (f : List Int) :
    ∀ e ∈ addFaceEdges f, e.1 ∈ f ∧ e.2 ∈ f := by
  intro e he
  unfold addFaceEdges at he
  by_cases hlen : f.length < 2
  · rw [if_pos hlen] at he
    exact absurd he (List.not_mem_nil e)
  · rw [if_neg hlen] at he
    rcases List.mem_filterMap.mp he with ⟨i, hi, hev⟩
    have hpos : 0 < f.length := by omega
    have hi2 : (i + 1) % f.length < f.length := Nat.mod_lt _ hpos
    by_cases hd : f.getD i 0 = f.getD ((i + 1) % f.length) 0
    · rw [if_pos hd] at hev
      exact Option.noConfusion hev
    · rw [if_neg hd] at hev
      rcases Option.some.inj hev with rfl
      have h1 : i < f.length := List.mem_range.mp hi
      constructor
      · rw [List.getD_eq_getElem f 0 h1]
        exact List.getElem_mem h1
      · rw [List.getD_eq_getElem f 0 hi2]
        exact List.getElem_mem hi2

/-- A deduplicated edge was present in the input. -/
theorem dedupGo_subset : ∀ (es : List (Int × Int)) (seen : List (Int × Int)),
    ∀ e ∈ dedupGo seen es, e ∈ es := by
  intro es
  induction es with
  | nil => intro seen e he; simpa [dedupGo] using he
  | cons e2 rest ih =>
    intro seen e he
    unfold dedupGo at he
    by_cases hk : edgeKey e2.1 e2.2 ∈ seen
    · rw [if_pos hk] at he
      exact List.mem_cons_of_mem e2 (ih seen e he)
    · rw [if_neg hk] at he
      rcases List.mem_cons.mp he with rfl | he2
      · exact List.mem_cons_self e rest
      · exact List.mem_cons_of_mem e2 (ih _ e he2)

/-- The deduplicated list has pairwise-distinct canonical keys, none of them
in `seen`. -/
theorem dedupGo_keys : ∀ (es : List (Int × Int)) (seen : List (Int × Int)),
    (dedupGo seen es).Pairwise
      (fun e1 e2 => edgeKey e1.1 e1.2 ≠ edgeKey e2.1 e2.2) ∧
    ∀ e ∈ dedupGo seen es, edgeKey e.1 e.2 ∉ seen := by
  intro es
  induction es with
  | nil => intro seen; constructor <;> simp [dedupGo]
  | cons e2 rest ih =>
    intro seen
    unfold dedupGo
    by_cases hk : edgeKey e2.1 e2.2 ∈ seen
    · rw [if_pos hk]
      exact ih seen
    · rw [if_neg hk]
      have ih2 := ih (edgeKey e2.1 e2.2 :: seen)
      constructor
      · refine List.pairwise_cons.mpr ⟨?_, ih2.1⟩
        intro e3 he3 heq
        exact (ih2.2 e3 he3) (heq ▸ List.mem_cons_self _ _)
      · intro e he
        rcases List.mem_cons.mp he with rfl | he2
        · exact hk
        · exact fun hmem => (ih2.2 e he2) (List.mem_cons_of_mem _ hmem)

/-- Two edges share a canonical key exactly when they are the same unordered
pair (the C++ packs the swapped pair into 64 bits, injectively for ints). -/
theorem edgeKey_eq_iff (a b c d : Int) :
    edgeKey a b = edgeKey c d ↔ (a = c ∧ b = d) ∨ (a = d ∧ b = c) := by
  unfold edgeKey
  split_ifs <;> simp [Prod.ext_iff] <;> omega

/-- Every edge accumulated by the line loop is non-degenerate, provided the
already-accumulated ones are. -/
theorem loadLines_edges_ne (lines : List ObjLine) :
    ∀ (vs : List Vec3) (es : List (Int × Int)) (vs2 : List Vec3)
      (es2 : List (Int × Int)),
      loadLines lines vs es = .ok (vs2, es2) →
      (∀ e ∈ es, e.1 ≠ e.2) → ∀ e ∈ es2, e.1 ≠ e.2 := by
  induction lines with
  | nil =>
    intro vs es vs2 es2 h hne
    unfold loadLines at h
    rcases Except.ok.inj h with h2
    rcases Prod.mk.injEq .. ▸ h2 with ⟨rfl, rfl⟩
    exact hne
  | cons l rest ih =>
    intro vs es vs2 es2 h hne
    rcases l with _ | ⟨tag, toks⟩
    · exact ih vs es vs2 es2 h hne
    · unfold loadLines at h
      by_cases hv : tag = "v"
      · rw [if_pos hv] at h
        exact ih _ es vs2 es2 h hne
      · rw [if_neg hv] at h
        by_cases hf : tag = "f"
        · rw [if_pos hf] at h
          rcases hp : parseFaceToks vs.length toks with e2 | f2
          · rw [hp] at h
            exact Except.noConfusion h
          · rw [hp] at h
            refine ih vs _ vs2 es2 h ?_
            intro e he
            rcases List.mem_append.mp he with he2 | he2
            · exact hne e he2
            · exact addFaceEdges_ne f2 e he2
        · rw [if_neg hf] at h
          exact ih vs es vs2 es2 h hne

/-- An `Except` whose `toOption` is `some` is `ok`. -/
theorem except_ok_of_toOption {ε α : Type} (x : Except ε α) (a : α)
    (h : x.toOption = some a) : x = .ok a := by
  cases x with
  | error e => simp [Except.toOption] at h
  | ok b =>
    simp only [Except.toOption] at h
    rw [Option.some.inj h]

/-! ### Claim C9: face-edge extraction with wrap-around -/

/-- Claim C9: a face of length n ≥ 2 contributes every non-degenerate
boundary edge `(f[i], f[(i+1) mod n])`, wrap-around included; equal-endpoint
edges are skipped; and the concrete 4-vertex single-quad source `f 1 2 3 4`
loads to a mesh with 4 vertices and exactly the 4 deduplicated edges,
including the wrap edge between vertex indices 3 and 0. -/
theorem face_edges_wrap_quad :
    (∀ f : List Int, ∀ i : Nat, i < f.length → ¬ f.length < 2 →
      f.getD i 0 ≠ f.getD ((i + 1) % f.length) 0 →
      (f.getD i 0, f.getD ((i + 1) % f.length) 0) ∈ addFaceEdges f) ∧
    (∀ f : List Int, ∀ e ∈ addFaceEdges f, e.1 ≠ e.2) ∧
    (loadOBJ [["v", "0", "0", "0"], ["v", "1", "0", "0"], ["v", "1", "1", "0"],
        ["v", "0", "1", "0"], ["f", "1", "2", "3", "4"]] ⟨[], []⟩).toOption.map
        (fun m => (m.vertices.length, m.edges))
      = some (4, [(0, 1), (1, 2), (2, 3), (3, 0)]) := by
  refine ⟨?_, ?_, by decide⟩
  · intro f i hi hlen hne
    unfold addFaceEdges
    rw [if_neg hlen]
    exact List.mem_filterMap.mpr
      ⟨i, List.mem_range.mpr hi, by rw [if_neg hne]⟩
  · intro f e he
    unfold addFaceEdges at he
    by_cases hlen : f.length < 2
    · rw [if_pos hlen] at he
      exact absurd he (List.not_mem_nil e)
    · rw [if_neg hlen] at he
      rcases List.mem_filterMap.mp he with ⟨i, _, hev⟩
      by_cases hd : f.getD i 0 = f.getD ((i + 1) % f.length) 0
      · rw [if_pos hd] at hev
        exact Option.noConfusion hev
      · rw [if_neg hd] at hev
        rcases Option.some.inj hev with rfl
        exact hd

/-- Witness for C9's general part: for the face `[0, 1, 2, 3]` the wrap pair
`(f[3], f[(3+1) mod 4]) = (3, 0)` is one of the extracted boundary edges, and
no extracted edge of that face is degenerate. -/
theorem face_edges_wrap_quad_witness :
    ((3 : Int), (0 : Int)) ∈ addFaceEdges [0, 1, 2, 3] ∧
    ∀ e ∈ addFaceEdges [0, 1, 2, 3], e.1 ≠ e.2 := by
  constructor
  · have h := face_edges_wrap_quad.1 [0, 1, 2, 3] 3
      (by decide) (by decide) (by decide)
    simpa using h
  · intro e he
    exact face_edges_wrap_quad.2.1 [0, 1, 2, 3] e he

/-! ### Claim C5: malformed numeric tokens -/

/-- Counterexample to C5 as stated: a non-numeric token where a vertex
coordinate is expected does not fail the load.  `operator>>` stores 0 on
failure and `loadOBJ` never tests the stream state for vertex records, so
the source `v a b c` is accepted as success with a (0,0,0) vertex instead
of producing a ParseError. -/
theorem malformed_vertex_accepted_counterexample :
    parseFloatTok "a".data = none ∧
    (loadOBJ [["v", "a", "b", "c"]] ⟨[], []⟩).toOption
      = some ⟨[⟨0, 0, 0⟩], []⟩ := by
  constructor <;> decide

/-- A face record containing a malformed index token parses to an error. -/
theorem parseFaceToks_error (k : Nat) (toks : List String)
    (h : ∃ t ∈ toks, malformedFaceTok t) :
    parseFaceToks k toks = .error () := by
  induction toks with
  | nil => rcases h with ⟨t, ht, _⟩; exact absurd ht (List.not_mem_nil t)
  | cons t r ih =>
    rcases h with ⟨t2, ht2, hm⟩
    rcases List.mem_cons.mp ht2 with rfl | hmem
    · unfold parseFaceToks
      rw [if_neg hm.1, hm.2]
    · unfold parseFaceToks
      by_cases ha : t.data.takeWhile (fun c => c ≠ '/') = []
      · rw [if_pos ha]
        exact ih ⟨t2, hmem, hm⟩
      · rw [if_neg ha]
        rcases hp : parseIntTok (t.data.takeWhile fun c => c ≠ '/') with _ | idx
        · rfl
        · rw [ih ⟨t2, hmem, hm⟩]
          rfl

/-- A source containing a face record with a malformed index token makes the
whole line loop fail, whatever the running state. -/
theorem loadLines_error (lines : List ObjLine)
    (h : ∃ toks, ("f" :: toks) ∈ lines ∧ ∃ t ∈ toks, malformedFaceTok t) :
    ∀ (vs : List Vec3) (es : List (Int × Int)),
      loadLines lines vs es = .error () := by
  induction lines with
  | nil =>
    rcases h with ⟨toks, hmem, _⟩
    exact absurd hmem (List.not_mem_nil _)
  | cons l rest ih =>
    intro vs es
    rcases h with ⟨toks, hmem, hm⟩
    rcases List.mem_cons.mp hmem with rfl | hmem2
    · unfold loadLines
      rw [if_neg (by decide), if_pos rfl, parseFaceToks_error vs.length toks hm]
    · have ih2 := ih ⟨toks, hmem2, hm⟩
      rcases l with _ | ⟨tag, toks2⟩
      · unfold loadLines
        exact ih2 vs es
      · unfold loadLines
        by_cases hv : tag = "v"
        · rw [if_pos hv]
          exact ih2 (vs ++ [readVec3 toks2]) es
        · rw [if_neg hv]
          by_cases hf : tag = "f"
          · rw [if_pos hf]
            rcases hp : parseFaceToks vs.length toks2 with e2 | f2
            · rfl
            · exact ih2 vs (es ++ addFaceEdges f2)
          · rw [if_neg hf]
            exact ih2 vs es

/-- Claim C5 (amended): a malformed numeric token in a face record (a
non-empty, non-numeric first `/`-segment) makes `std::stoi` throw, so the
load as a whole fails and no mesh is returned; a malformed numeric token in
a vertex record, however, does not fail the load — the coordinates read as 0
and the load reports success (see the counterexample). -/
theorem malformed_face_token_fails_load (lines : List ObjLine) (m0 : Mesh)
    (h : ∃ toks, ("f" :: toks) ∈ lines ∧ ∃ t ∈ toks, malformedFaceTok t) :
    loadOBJ lines m0 = .error () := by
  unfold loadOBJ
  rw [loadLines_error lines h m0.vertices []]

/-- Witness for C5 (amended): the source `f x 2` (with the non-numeric face
index `x`) fails the load. -/
theorem malformed_face_token_fails_load_witness :
    loadOBJ [["f", "x", "2"]] ⟨[], []⟩ = .error () :=
  malformed_face_token_fails_load [["f", "x", "2"]] ⟨[], []⟩
    ⟨["x", "2"], by decide, "x", by decide, by decide⟩

/-! ### Claim C6: edge deduplication invariants -/

/-- Claim C6: in any successfully loaded mesh, no unordered vertex-index
pair occurs twice among the edges ((a,b) and (b,a) count as the same edge),
and no edge has equal endpoints. -/
theorem load_dedup_invariant (lines : List ObjLine) (m0 m : Mesh)
    (h : loadOBJ lines m0 = .ok m) :
    m.edges.Pairwise (fun e1 e2 =>
      ¬ ((e1.1 = e2.1 ∧ e1.2 = e2.2) ∨ (e1.1 = e2.2 ∧ e1.2 = e2.1))) ∧
    ∀ e ∈ m.edges, e.1 ≠ e.2 := by
  unfold loadOBJ at h
  rcases hl : loadLines lines m0.vertices [] with e2 | p
  · rw [hl] at h
    exact Except.noConfusion h
  · rw [hl] at h
    rcases Except.ok.inj h with rfl
    constructor
    · refine List.Pairwise.imp ?_ (dedupGo_keys p.2 []).1
      intro e1 e3 hne hor
      exact hne ((edgeKey_eq_iff e1.1 e1.2 e3.1 e3.2).mpr hor)
    · intro e he
      exact loadLines_edges_ne lines m0.vertices [] p.1 p.2
        (hl.trans (by rw [Prod.mk.eta])) (by simp) e
        (dedupGo_subset p.2 [] e he)

/-- Witness for C6 on a concrete loaded quad: its four deduplicated edges
repeat no unordered pair and contain no self-loop. -/
theorem load_dedup_invariant_witness :
    ([(0, 1), (1, 2), (2, 3), (3, 0)] : List (Int × Int)).Pairwise
      (fun e1 e2 =>
        ¬ ((e1.1 = e2.1 ∧ e1.2 = e2.2) ∨ (e1.1 = e2.2 ∧ e1.2 = e2.1))) ∧
    ∀ e ∈ ([(0, 1), (1, 2), (2, 3), (3, 0)] : List (Int × Int)),
      e.1 ≠ e.2 :=
  load_dedup_invariant [["v"], ["v"], ["v"], ["v"], ["f", "1", "2", "3", "4"]]
    ⟨[], []⟩ ⟨[⟨0, 0, 0⟩, ⟨0, 0, 0⟩, ⟨0, 0, 0⟩, ⟨0, 0, 0⟩],
      [(0, 1), (1, 2), (2, 3), (3, 0)]⟩
    (except_ok_of_toOption _ _ (by decide))

/-! ### Claim C4: edge index range -/

/-- Counterexample to C4 as stated: the loader performs no index-range
validation, so it accepts the source `v 0 0 0 / f 1 3` (face index 3 with
only one vertex) and returns success with the out-of-range edge (0, 2),
whose second index is not below the vertex count 1. -/
theorem load_range_counterexample :
    (loadOBJ [["v", "0", "0", "0"], ["f", "1", "3"]] ⟨[], []⟩).toOption.map
        (fun m => (m.vertices.length, m.edges)) = some (1, [(0, 2)]) ∧
    ¬ ((2 : Int) < ((1 : Nat) : Int)) := by
  constructor <;> decide

/-- The line loop appends exactly one vertex per `v` record. -/
theorem loadLines_vertex_count (lines : List ObjLine) :
    ∀ (vs : List Vec3) (es : List (Int × Int)) (vs2 : List Vec3)
      (es2 : List (Int × Int)),
      loadLines lines vs es = .ok (vs2, es2) →
      vs2.length = vs.length + vcountLines lines := by
  induction lines with
  | nil =>
    intro vs es vs2 es2 h
    unfold loadLines at h
    rcases Except.ok.inj h with h2
    rcases Prod.mk.injEq .. ▸ h2 with ⟨rfl, rfl⟩
    simp [vcountLines]
  | cons l rest ih =>
    intro vs es vs2 es2 h
    rcases l with _ | ⟨tag, toks⟩
    · rw [ih vs es vs2 es2 h]
      simp [vcountLines, List.filter_cons]
    · unfold loadLines at h
      by_cases hv : tag = "v"
      · rw [if_pos hv] at h
        rw [ih _ es vs2 es2 h]
        subst hv
        simp [vcountLines, List.filter_cons]
        omega
      · rw [if_neg hv] at h
        have hvtag : ¬ (tag :: toks : List String).head? = some "v" := by
          rw [List.head?_cons]
          exact fun hc => hv (Option.some.inj hc)
        by_cases hf : tag = "f"
        · rw [if_pos hf] at h
          rcases hp : parseFaceToks vs.length toks with e2 | f2
          · rw [hp] at h
            exact Except.noConfusion h
          · rw [hp] at h
            rw [ih vs _ vs2 es2 h]
            simp [vcountLines, List.filter_cons, hvtag, hv]
        · rw [if_neg hf] at h
          rw [ih vs es vs2 es2 h]
          simp [vcountLines, List.filter_cons, hvtag, hv]

/-- Every index a face record parses comes from one of its tokens via the
sign-dependent resolution of ObjLoader.cpp lines 53-56. -/
theorem parseFaceToks_mem (k : Nat) :
    ∀ (toks : List String) (f : List Int),
      parseFaceToks k toks = .ok f →
      ∀ j ∈ f, ∃ t ∈ toks, ∃ i : Int,
        parseIntTok (t.data.takeWhile fun c => c ≠ '/') = some i ∧
        j = (if i < 0 then (k : Int) + i + 1 else i) - 1 := by
  intro toks
  induction toks with
  | nil =>
    intro f h j hj
    unfold parseFaceToks at h
    rcases Except.ok.inj h with rfl
    exact absurd hj (List.not_mem_nil j)
  | cons t r ih =>
    intro f h j hj
    unfold parseFaceToks at h
    by_cases ha : t.data.takeWhile (fun c => c ≠ '/') = []
    · rw [if_pos ha] at h
      rcases ih f h j hj with ⟨t2, ht2, hrest⟩
      exact ⟨t2, List.mem_cons_of_mem t ht2, hrest⟩
    · rw [if_neg ha] at h
      rcases hp : parseIntTok (t.data.takeWhile fun c => c ≠ '/') with _ | idx
      · rw [hp] at h
        exact Except.noConfusion h
      · rw [hp] at h
        rcases hr : parseFaceToks k r with e2 | f2
        · rw [hr] at h
          exact Except.noConfusion h
        · rw [hr] at h
          rcases Except.ok.inj h with rfl
          rcases List.mem_cons.mp hj with rfl | hj2
          · exact ⟨t, List.mem_cons_self t r, idx, hp, rfl⟩
          · rcases ih f2 hr j hj2 with ⟨t2, ht2, hrest⟩
            exact ⟨t2, List.mem_cons_of_mem t ht2, hrest⟩

/-- If every face-index token of the source resolves inside `[1, V]`, every
accumulated edge endpoint lies in `[0, V)`. -/
theorem loadLines_edges_range (lines : List ObjLine) (V : Nat)
    (H : ∀ toks, ("f" :: toks) ∈ lines → ∀ t ∈ toks, ∀ i : Int,
      parseIntTok (t.data.takeWhile fun c => c ≠ '/') = some i →
      1 ≤ i ∧ i ≤ (V : Int)) :
    ∀ (vs : List Vec3) (es : List (Int × Int)) (vs2 : List Vec3)
      (es2 : List (Int × Int)),
      loadLines lines vs es = .ok (vs2, es2) →
      (∀ e ∈ es, 0 ≤ e.1 ∧ e.1 < (V : Int) ∧ 0 ≤ e.2 ∧ e.2 < (V : Int)) →
      ∀ e ∈ es2, 0 ≤ e.1 ∧ e.1 < (V : Int) ∧ 0 ≤ e.2 ∧ e.2 < (V : Int) := by
  induction lines with
  | nil =>
    intro vs es vs2 es2 h hr
    unfold loadLines at h
    rcases Except.ok.inj h with h2
    rcases Prod.mk.injEq .. ▸ h2 with ⟨rfl, rfl⟩
    exact hr
  | cons l rest ih =>
    have Hrest : ∀ toks, ("f" :: toks) ∈ rest → ∀ t ∈ toks, ∀ i : Int,
        parseIntTok (t.data.takeWhile fun c => c ≠ '/') = some i →
        1 ≤ i ∧ i ≤ (V : Int) :=
      fun toks hmem => H toks (List.mem_cons_of_mem l hmem)
    intro vs es vs2 es2 h hr
    rcases l with _ | ⟨tag, toks⟩
    · exact ih Hrest vs es vs2 es2 h hr
    · unfold loadLines at h
      by_cases hv : tag = "v"
      · rw [if_pos hv] at h
        exact ih Hrest _ es vs2 es2 h hr
      · rw [if_neg hv] at h
        by_cases hf : tag = "f"
        · rw [if_pos hf] at h
          rcases hp : parseFaceToks vs.length toks with e2 | f2
          · rw [hp] at h
            exact Except.noConfusion h
          · rw [hp] at h
            refine ih Hrest vs _ vs2 es2 h ?_
            intro e he
            rcases List.mem_append.mp he with he2 | he2
            · exact hr e he2
            · have hjr : ∀ j ∈ f2, 0 ≤ j ∧ j < (V : Int) := by
                intro j hj
                rcases parseFaceToks_mem vs.length toks f2 hp j hj with
                  ⟨t, ht, i, hpi, hjv⟩
                have hiv := H toks (hf ▸ List.mem_cons_self _ rest) t ht i hpi
                have hnneg : ¬ i < 0 := by omega
                rw [hjv, if_neg hnneg]
                omega
              rcases addFaceEdges_mem f2 e he2 with ⟨h1, h2⟩
              rcases hjr e.1 h1 with ⟨h11, h12⟩
              rcases hjr e.2 h2 with ⟨h21, h22⟩
              exact ⟨h11, h12, h21, h22⟩
        · rw [if_neg hf] at h
          exact ih Hrest vs es vs2 es2 h hr

/-- Claim C4 (amended): the loader itself validates nothing, so the index
invariant holds only for sources whose face-index tokens actually refer to
vertices: if every face-index token of a source (loaded into an empty mesh)
parses to an integer in `[1, vertex-record-count]`, then every edge of the
resulting mesh has both indices in `[0, vertex_count)`. -/
theorem load_index_range (lines : List ObjLine) (m : Mesh)
    (H : ∀ toks, ("f" :: toks) ∈ lines → ∀ t ∈ toks, ∀ i : Int,
      parseIntTok (t.data.takeWhile fun c => c ≠ '/') = some i →
      1 ≤ i ∧ i ≤ (vcountLines lines : Int))
    (h : loadOBJ lines ⟨[], []⟩ = .ok m) :
    ∀ e ∈ m.edges,
      0 ≤ e.1 ∧ e.1 < (m.vertices.length : Int) ∧
      0 ≤ e.2 ∧ e.2 < (m.vertices.length : Int) := by
  unfold loadOBJ at h
  rcases hl : loadLines lines [] [] with e2 | p
  · rw [hl] at h
    exact Except.noConfusion h
  · rw [hl] at h
    rcases Except.ok.inj h with rfl
    have hcount : p.1.length = vcountLines lines := by
      have := loadLines_vertex_count lines [] [] p.1 p.2
        (hl.trans (by rw [Prod.mk.eta]))
      simpa using this
    intro e he
    have := loadLines_edges_range lines (vcountLines lines) H [] [] p.1 p.2
      (hl.trans (by rw [Prod.mk.eta])) (by simp) e (dedupGo_subset p.2 [] e he)
    rw [show (⟨p.1, dedupEdges p.2⟩ : Mesh).vertices = p.1 from rfl, hcount]
    exact this

/-- Witness for C4 (amended): a two-vertex source whose face `f 1 2` uses
only in-range indices loads to a mesh whose single edge (0, 1) is in
`[0, 2)`. -/
theorem load_index_range_witness :
    0 ≤ ((0, 1) : Int × Int).1 ∧
    ((0, 1) : Int × Int).1 < (([⟨0, 0, 0⟩, ⟨0, 0, 0⟩] : List Vec3).length : Int) ∧
    0 ≤ ((0, 1) : Int × Int).2 ∧
    ((0, 1) : Int × Int).2 < (([⟨0, 0, 0⟩, ⟨0, 0, 0⟩] : List Vec3).length : Int) := by
  refine load_index_range [["v"], ["v"], ["f", "1", "2"]]
    ⟨[⟨0, 0, 0⟩, ⟨0, 0, 0⟩], [(0, 1)]⟩ ?_
    (except_ok_of_toOption _ _ (by decide)) (0, 1) (by decide)
  intro toks hmem
  rcases List.mem_cons.mp hmem with h1 | h1
  · exact absurd (List.cons_eq_cons.mp h1).1 (by decide)
  rcases List.mem_cons.mp h1 with h2 | h2
  · exact absurd (List.cons_eq_cons.mp h2).1 (by decide)
  rcases List.mem_singleton.mp h2 with h3
  rcases (List.cons_eq_cons.mp h3).2 with rfl
  decide

/-! ### Claim C10: loadOBJ appends vertices and replaces edges -/

/-- The line loop is the rebased parse shifted by the starting state: the
carried vertex list only grows at the end, the carried edge accumulator only
grows at the end, and the parse itself depends on the starting vertex list
only through its length. -/
theorem loadLines_rel (lines : List ObjLine) :
    ∀ (vs : List Vec3) (es : List (Int × Int)),
      loadLines lines vs es = Except.map
        (fun p => (vs ++ p.1, es ++ p.2)) (loadLinesRel lines vs.length) := by
  induction lines with
  | nil =>
    intro vs es
    simp [loadLines, loadLinesRel, Except.map]
  | cons l rest ih =>
    intro vs es
    rcases l with _ | ⟨tag, toks⟩
    · exact ih vs es
    · unfold loadLines loadLinesRel
      by_cases hv : tag = "v"
      · rw [if_pos hv, if_pos hv, ih (vs ++ [readVec3 toks]) es]
        cases hrel : loadLinesRel rest (vs.length + 1) with
        | error e2 => simp [Except.map, List.length_append, hrel]
        | ok p => simp [Except.map, List.length_append, hrel]
      · rw [if_neg hv, if_neg hv]
        by_cases hf : tag = "f"
        · rw [if_pos hf, if_pos hf]
          rcases hp : parseFaceToks vs.length toks with e2 | f2
          · rfl
          · dsimp only
            rw [ih vs (es ++ addFaceEdges f2)]
            cases hrel : loadLinesRel rest vs.length with
            | error e2 => simp [Except.map, hrel]
            | ok p => simp [Except.map, hrel]
        · rw [if_neg hf, if_neg hf]
          exact ih vs es

/-- Claim C10: `loadOBJ` does not reset the mesh it is given: on success the
parsed vertices are appended after the vertices already present (the parse
sees their count, so the file's indices resolve against the combined list),
while the edge list is replaced wholesale by the deduplicated newly parsed
edges; consequently the result is entirely independent of the edges already
in the passed-in mesh. -/
theorem loadOBJ_frame_effect (lines : List ObjLine) (m0 : Mesh) :
    loadOBJ lines m0 = Except.map
      (fun p => ⟨m0.vertices ++ p.1, dedupEdges p.2⟩)
      (loadLinesRel lines m0.vertices.length) ∧
    ∀ es0 : List (Int × Int),
      loadOBJ lines ⟨m0.vertices, es0⟩ = loadOBJ lines m0 := by
  have key : ∀ m1 : Mesh, loadOBJ lines m1 = Except.map
      (fun p => ⟨m1.vertices ++ p.1, dedupEdges p.2⟩)
      (loadLinesRel lines m1.vertices.length) := by
    intro m1
    unfold loadOBJ
    rw [loadLines_rel lines m1.vertices []]
    rcases loadLinesRel lines m1.vertices.length with e2 | p
    · rfl
    · simp [Except.map]
  refine ⟨key m0, ?_⟩
  intro es0
  rw [key m0, key ⟨m0.vertices, es0⟩]

end Renderer3D
